import Mathlib

/-!
Verification of `runtime/core/decoder/batch_torch_asr_model.cc`
(class `wenet::BatchTorchAsrModel`) against its specification.

Modelling conventions:
* `float` scores, log-probabilities and `reverse_weight` are modelled by `ℚ`;
  the properties under study are about the exact shape of the score formulas,
  not about rounding, and the spec itself only asks for equality up to
  floating tolerance.
* torch tensors are nested lists; an (in-bounds) accessor read `t[i][j]` is
  modelled by `List.getD` with default `0` resp. `[]`.  A separate `Checked`
  variant returning `Option` is used to reason about bounds.
* the loaded TorchScript module is opaque: each named method the C++ code
  invokes through `run_method` / `get_method` is a function-valued field of
  the `BatchTorchAsrModel` structure.  The field `batch_forward_encoder_`
  does not correspond to anything the C++ file calls: it is the batched
  encoder op the spec (§6) declares canonical, and is carried only so that
  the spec's reading of the batched encoder path can be compared with the
  code's reading.
* token ids (`int` in C++, used as tensor indices) are modelled by `Nat`.
-/

/-- Three-dimensional float tensor, e.g. log-probabilities of shape (N, L, V). -/
abbrev Tensor3 : Type := List (List (List ℚ))

/-- Accessor read `prob[i][j]` on a two-dimensional tensor slice
(`prob.accessor<float, 2>()` in the C++ source). -/
def at2 (prob : List (List ℚ)) (i j : Nat) : ℚ :=
  (prob.getD i []).getD j 0

/-- Result of the `forward_attention_decoder` method: the tuple
`(probs, r_probs)` of L2R and R2L decoder log-probabilities. -/
structure DecoderOut where
  probs : Tensor3
  r_probs : Tensor3

/-- The executor state of `wenet::BatchTorchAsrModel`: the metadata members
(`subsampling_rate_`, `right_context_`, `sos_`, `eos_`,
`is_bidirectional_decoder_`), the retained batched encoder output
`encoder_out_`, and the opaque TorchScript module, represented by one
function field per named method the runtime invokes. -/
structure BatchTorchAsrModel where
  subsampling_rate_ : Int
  right_context_ : Int
  sos_ : Nat
  eos_ : Nat
  is_bidirectional_decoder_ : Bool
  encoder_out_ : Tensor3
  /-- method `forward_encoder_batch(feats, feats_lens)`, a 2-tuple
  `(encoder_out, encoder_mask)`; the C++ code checks the arity and uses
  only element 0. -/
  forward_encoder_batch_ : Tensor3 → List Int → Tensor3 × Tensor3
  /-- method `ctc_activation(encoder_out)`. -/
  ctc_activation_ : Tensor3 → Tensor3
  /-- The spec's canonical batched encoder op (§6):
  `batch_forward_encoder : feats, feats_lens ↦ (enc_out, enc_lens, ctc_logp)`.
  Not invoked by the C++ file; present only to state claim C3. -/
  batch_forward_encoder_ : Tensor3 → List Int → Tensor3 × List Int × Tensor3
  /-- method `forward_attention_decoder(hyps_tensor, hyps_length, encoder_out,
  reverse_weight)`. -/
  forward_attention_decoder_ : List (List Nat) → List Nat → Tensor3 → ℚ → DecoderOut

/-- Metadata exposed by a loaded TorchScript model through the methods
`subsampling_rate`, `right_context`, `sos_symbol`, `eos_symbol`,
`is_bidirectional_decoder` (each returning a well-typed IValue, so the
`CHECK_EQ(o.isInt/Bool(), true)` assertions of the source hold). -/
structure ModelMetadata where
  subsampling_rate : Int
  right_context : Int
  sos_symbol : Nat
  eos_symbol : Nat
  is_bidirectional_decoder : Bool

/-- `BatchTorchAsrModel::Read`, lines 40–75: queries the five metadata
methods of the loaded model and stores the results in the member fields.
Faithful to the source, the value `o2` of the `right_context` method is
retrieved and type-checked but never assigned to `right_context_` (lines
58–59 have no `right_context_ = o2.toInt();`), so that member keeps
whatever value it held before. -/
def BatchTorchAsrModel.Read (m : BatchTorchAsrModel) (meta : ModelMetadata) :
    BatchTorchAsrModel :=
  { m with
    subsampling_rate_ := meta.subsampling_rate
    sos_ := meta.sos_symbol
    eos_ := meta.eos_symbol
    is_bidirectional_decoder_ := meta.is_bidirectional_decoder }

/-- The loop of `BatchTorchAsrModel::ComputeAttentionScore` (lines 158–160):
`for j in [0, hyp.size()): score += prob[j][hyp[j]]`, entered with running
index `j` and accumulator `score`. -/
def scoreLoop (prob : List (List ℚ)) (hyp : List Nat) (j : Nat) (score : ℚ) : ℚ :=
  match hyp with
  | [] => score
  | t :: rest => scoreLoop prob rest (j + 1) (score + at2 prob j t)

/-- `BatchTorchAsrModel::ComputeAttentionScore`, lines 153–163: the loop
over the hypothesis tokens followed by `score += prob[hyp.size()][eos]`. -/
def BatchTorchAsrModel.ComputeAttentionScore (prob : List (List ℚ))
    (hyp : List Nat) (eos : Nat) : ℚ :=
  scoreLoop prob hyp 0 0 + at2 prob hyp.length eos

/-- Bounds-checked variant of `scoreLoop`: every accessor read is performed
with `List.get?` and the loop fails (`none`) on the first out-of-range
index.  Used to state claim C8. -/
def scoreLoopChecked (prob : List (List ℚ)) (hyp : List Nat) (j : Nat)
    (score : ℚ) : Option ℚ :=
  match hyp with
  | [] => some score
  | t :: rest =>
    match prob.get? j with
    | none => none
    | some row =>
      match row.get? t with
      | none => none
      | some v => scoreLoopChecked prob rest (j + 1) (score + v)

/-- Bounds-checked variant of `ComputeAttentionScore`. -/
def ComputeAttentionScoreChecked (prob : List (List ℚ)) (hyp : List Nat)
    (eos : Nat) : Option ℚ :=
  (scoreLoopChecked prob hyp 0 0).bind fun s =>
    (prob.get? hyp.length).bind fun row =>
      (row.get? eos).map fun v => s + v

/-- The inner loop of `AttentionRescoring` step 1 (lines 192–194):
`for j in [0, hyp.size()): hyps_tensor[i][j + 1] = hyp[j]`, entered at
write position `pos`. -/
def writeHyp (row : List Nat) (hyp : List Nat) (pos : Nat) : List Nat :=
  match hyp with
  | [] => row
  | t :: rest => writeHyp (row.set pos t) rest (pos + 1)

/-- Row `i` of `hyps_tensor` (lines 187–195): a `torch::zeros` row of length
`max_len`, then `hyps_tensor[i][0] = sos_` and the token-writing loop. -/
def fillHypRow (sos : Nat) (hyp : List Nat) (max_len : Nat) : List Nat :=
  writeHyp ((List.replicate max_len 0).set 0 sos) hyp 1

/-- The whole `hyps_tensor` of `AttentionRescoring` step 1. -/
def buildHypsTensor (sos : Nat) (hyps : List (List Nat)) (max_len : Nat) :
    List (List Nat) :=
  hyps.map fun h => fillHypRow sos h max_len

/-- `max_hyps_len` (lines 181–186): running maximum of `hyp.size() + 1`
over the N-best, starting from 0. -/
def maxHypsLen (hyps : List (List Nat)) : Nat :=
  hyps.foldl (fun acc h => max (h.length + 1) acc) 0

/-- `hyps_length` (lines 180–186): per-hypothesis length `hyp.size() + 1`. -/
def hypsLengths (hyps : List (List Nat)) : List Nat :=
  hyps.map fun h => h.length + 1

/-- The `forward_attention_decoder` invocation of `AttentionRescoring`
step 2 (lines 197–209), on the padded hypothesis tensor, the hypothesis
lengths, the slice `encoder_out_[batch_index : batch_index + 1]`, and
`reverse_weight`. -/
def BatchTorchAsrModel.decoderOut (m : BatchTorchAsrModel)
    (hyps : List (List Nat)) (batch_index : Nat) (reverse_weight : ℚ) :
    DecoderOut :=
  m.forward_attention_decoder_ (buildHypsTensor m.sos_ hyps (maxHypsLen hyps))
    (hypsLengths hyps) ((m.encoder_out_.drop batch_index).take 1) reverse_weight

/-- The rescoring loop of `AttentionRescoring` step 3 (lines 221–241),
entered at hypothesis index `i`: L2R score from `probs[i]`, R2L score from
`r_probs[i]` on the reversed hypothesis when
`is_bidirectional_decoder_ && reverse_weight > 0` (else 0), combined as
`score * (1 - reverse_weight) + r_score * reverse_weight`. -/
def rescoreLoop (m : BatchTorchAsrModel) (out : DecoderOut)
    (reverse_weight : ℚ) (hyps : List (List Nat)) (i : Nat) : List ℚ :=
  match hyps with
  | [] => []
  | hyp :: rest =>
    let score := BatchTorchAsrModel.ComputeAttentionScore
      (out.probs.getD i []) hyp m.eos_
    let r_score := if m.is_bidirectional_decoder_ = true ∧ 0 < reverse_weight
      then BatchTorchAsrModel.ComputeAttentionScore
        (out.r_probs.getD i []) hyp.reverse m.eos_
      else 0
    (score * (1 - reverse_weight) + r_score * reverse_weight)
      :: rescoreLoop m out reverse_weight rest (i + 1)

/-- `BatchTorchAsrModel::AttentionRescoring`, lines 165–242: the score
vector is resized to `num_hyps` and the function returns at once when
`num_hyps == 0` (so the result is empty and the decoder is never invoked);
otherwise every entry is overwritten by the rescoring loop on the attention
decoder output. -/
def BatchTorchAsrModel.AttentionRescoring (m : BatchTorchAsrModel)
    (hyps : List (List Nat)) (batch_index : Nat) (reverse_weight : ℚ) :
    List ℚ :=
  if hyps.length = 0 then []
  else rescoreLoop m (m.decoderOut hyps batch_index reverse_weight)
    reverse_weight hyps 0

/-- `BatchTorchAsrModel::ForwardEncoderFunc`, lines 96–151: run the model
method `forward_encoder_batch` on `(feats, feats_lens)`, keep element 0 of
the returned 2-tuple as `encoder_out_`, run `ctc_activation` on it, and
copy the result row by row (`batch_size × num_outputs × output_dim`) into
`out_prob`.  The tensor marshalling of step 1 is the identity at this
abstraction.  Returns the updated executor state and `out_prob`. -/
def BatchTorchAsrModel.ForwardEncoderFunc (m : BatchTorchAsrModel)
    (batch_feats : Tensor3) (batch_feats_lens : List Int) :
    BatchTorchAsrModel × Tensor3 :=
  let batch_size := batch_feats.length
  let encoder_out := (m.forward_encoder_batch_ batch_feats batch_feats_lens).1
  let ctc_log_probs := m.ctc_activation_ encoder_out
  let num_outputs := (ctc_log_probs.getD 0 []).length
  let output_dim := ((ctc_log_probs.getD 0 []).getD 0 []).length
  let out_prob := (List.range batch_size).map fun i =>
    (List.range num_outputs).map fun j =>
      (List.range output_dim).map fun k =>
        ((ctc_log_probs.getD i []).getD j []).getD k 0
  ({ m with encoder_out_ := encoder_out }, out_prob)

/-- The batched encoder path as claim C3 reads it, following the spec's
words: one op named `batch_forward_encoder` taking `(feats, feats_lens)`
and returning the 3-tuple `(enc_out, enc_lens, ctc_logp)`, from which the
retained encoder output and the CTC log-probabilities are taken. -/
def BatchTorchAsrModel.ForwardEncoderFuncClaimC3 (m : BatchTorchAsrModel)
    (batch_feats : Tensor3) (batch_feats_lens : List Int) :
    BatchTorchAsrModel × Tensor3 :=
  let r := m.batch_forward_encoder_ batch_feats batch_feats_lens
  ({ m with encoder_out_ := r.1 }, r.2.2)

/-- Shape predicate: `t` is a regular tensor of shape `(a, b, c)`.
(A reducible definition, so that it stays decidable on concrete tensors.) -/
abbrev IsShape3 (t : Tensor3) (a b c : Nat) : Prop :=
  t.length = a ∧ ∀ r ∈ t, r.length = b ∧ ∀ q ∈ r, q.length = c

/-! ### Concrete sample instances, used for counterexamples and witnesses -/

/-- A minimal executor: every opaque method returns empty tensors. -/
def mBase : BatchTorchAsrModel where
  subsampling_rate_ := 4
  right_context_ := 1
  sos_ := 0
  eos_ := 2
  is_bidirectional_decoder_ := false
  encoder_out_ := []
  forward_encoder_batch_ := fun _ _ => ([], [])
  ctc_activation_ := fun _ => []
  batch_forward_encoder_ := fun _ _ => ([], [], [])
  forward_attention_decoder_ := fun _ _ _ _ => ⟨[], []⟩

/-- Sample L2R decoder log-probabilities of shape (2, 2, 3). -/
def sampleProbs : Tensor3 := [[[1, 2, 3], [4, 5, 6]], [[7, 8, 9], [10, 11, 12]]]

/-- Sample R2L decoder log-probabilities of shape (2, 2, 3). -/
def sampleRProbs : Tensor3 := [[[0, 1, 0], [2, 0, 1]], [[1, 1, 1], [0, 2, 0]]]

/-- An executor with a bidirectional decoder whose attention decoder always
returns `(sampleProbs, sampleRProbs)`. -/
def mBidir : BatchTorchAsrModel :=
  { mBase with
    is_bidirectional_decoder_ := true
    forward_attention_decoder_ := fun _ _ _ _ => ⟨sampleProbs, sampleRProbs⟩ }

/-- The same executor with a unidirectional decoder. -/
def mUni : BatchTorchAsrModel :=
  { mBase with
    forward_attention_decoder_ := fun _ _ _ _ => ⟨sampleProbs, sampleRProbs⟩ }

/-- An executor whose encoder methods return concrete small tensors; the
method `ctc_activation` and the third component of the (spec-side) method
`batch_forward_encoder` disagree, which separates the code's batched
encoder path from the one claim C3 describes. -/
def mEnc : BatchTorchAsrModel :=
  { mBase with
    forward_encoder_batch_ := fun _ _ => ([[[5]]], [[[1]]])
    ctc_activation_ := fun _ => [[[2]]]
    batch_forward_encoder_ := fun _ _ => ([[[5]]], [1], [[[3]]]) }

/-- Sample metadata of a loaded model, with `right_context = 7`. -/
def metaSample : ModelMetadata where
  subsampling_rate := 8
  right_context := 7
  sos_symbol := 10
  eos_symbol := 11
  is_bidirectional_decoder := true

/-! ### Helper lemmas -/

theorem le_foldl_max (hyps : List (List Nat)) :
    ∀ acc : Nat, acc ≤ hyps.foldl (fun acc h => max (h.length + 1) acc) acc := by
  induction hyps with
  | nil => intro acc; exact Nat.le_refl acc
  | cons a t ih =>
    intro acc
    exact Nat.le_trans (Nat.le_max_right _ acc) (ih (max (a.length + 1) acc))

theorem mem_le_foldl_max (hyps : List (List Nat)) :
    ∀ (acc : Nat) (h : List Nat), h ∈ hyps →
      h.length + 1 ≤ hyps.foldl (fun acc h => max (h.length + 1) acc) acc := by
  induction hyps with
  | nil => intro _ _ hm; cases hm
  | cons a t ih =>
    intro acc h hm
    rcases List.mem_cons.mp hm with rfl | hm
    · exact Nat.le_trans (Nat.le_max_left _ acc) (le_foldl_max t _)
    · exact ih (max (a.length + 1) acc) h hm

theorem length_le_maxHypsLen {hyps : List (List Nat)} {h : List Nat}
    (hm : h ∈ hyps) : h.length + 1 ≤ maxHypsLen hyps :=
  mem_le_foldl_max hyps 0 h hm

theorem scoreLoop_eq_sum (prob : List (List ℚ)) (hyp : List Nat) :
    ∀ (j : Nat) (s : ℚ), scoreLoop prob hyp j s
      = s + ∑ t ∈ Finset.range hyp.length, at2 prob (j + t) (hyp.getD t 0) := by
  induction hyp with
  | nil => intro j s; simp [scoreLoop]
  | cons a rest ih =>
    intro j s
    rw [scoreLoop, ih (j + 1) (s + at2 prob j a), List.length_cons,
      Finset.sum_range_succ']
    simp only [List.getD_cons_succ, List.getD_cons_zero, Nat.add_zero]
    have h1 : ∀ t ∈ Finset.range rest.length,
        at2 prob (j + 1 + t) (rest.getD t 0)
          = at2 prob (j + (t + 1)) (rest.getD t 0) := by
      intro t _
      rw [Nat.add_assoc, Nat.add_comm 1 t]
    rw [Finset.sum_congr rfl h1]
    ring

/-! ### Claim C2 -/

/-- C2: for every hypothesis `hyp = [t1, …, tK]` and L2R log-probability
matrix, the score computed by `ComputeAttentionScore` equals
`Σ_{j = 0..K-1} prob[j][t_{j+1}] + prob[K][eos]`. -/
theorem C2_compute_attention_score_formula (prob : List (List ℚ))
    (hyp : List Nat) (eos : Nat) :
    BatchTorchAsrModel.ComputeAttentionScore prob hyp eos
      = (∑ j ∈ Finset.range hyp.length, at2 prob j (hyp.getD j 0))
        + at2 prob hyp.length eos := by
  unfold BatchTorchAsrModel.ComputeAttentionScore
  rw [scoreLoop_eq_sum]
  simp

theorem writeHyp_cons (hyp : List Nat) :
    ∀ (a : Nat) (row : List Nat) (pos : Nat),
      writeHyp (a :: row) hyp (pos + 1) = a :: writeHyp row hyp pos := by
  induction hyp with
  | nil => intro a row pos; rfl
  | cons t rest ih =>
    intro a row pos
    show writeHyp ((a :: row).set (pos + 1) t) rest (pos + 1 + 1)
      = a :: writeHyp (row.set pos t) rest (pos + 1)
    exact ih a (row.set pos t) (pos + 1)

theorem writeHyp_replicate (hyp : List Nat) :
    ∀ n : Nat, hyp.length ≤ n →
      writeHyp (List.replicate n 0) hyp 0
        = hyp ++ List.replicate (n - hyp.length) 0 := by
  induction hyp with
  | nil => intro n _; rfl
  | cons t rest ih =>
    intro n hn
    obtain ⟨m, rfl⟩ : ∃ m, n = m + 1 :=
      ⟨n - 1, by simp at hn; omega⟩
    show writeHyp ((List.replicate (m + 1) 0).set 0 t) rest 1
      = (t :: rest) ++ List.replicate (m + 1 - (t :: rest).length) 0
    rw [List.replicate_succ, List.set_cons_zero]
    have h1 : writeHyp (t :: List.replicate m 0) rest (0 + 1)
        = t :: writeHyp (List.replicate m 0) rest 0 :=
      writeHyp_cons rest t (List.replicate m 0) 0
    rw [show (1 : Nat) = 0 + 1 from rfl, h1, ih m (by simp at hn; omega)]
    simp [List.length_cons, Nat.succ_sub_succ]

theorem fillHypRow_eq (sos : Nat) (hyp : List Nat) (L : Nat)
    (h : hyp.length + 1 ≤ L) :
    fillHypRow sos hyp L
      = sos :: hyp ++ List.replicate (L - (hyp.length + 1)) 0 := by
  obtain ⟨m, rfl⟩ : ∃ m, L = m + 1 := ⟨L - 1, by omega⟩
  show writeHyp ((List.replicate (m + 1) 0).set 0 sos) hyp 1 = _
  rw [List.replicate_succ, List.set_cons_zero,
    show (1 : Nat) = 0 + 1 from rfl, writeHyp_cons hyp sos (List.replicate m 0) 0,
    writeHyp_replicate hyp m (by omega)]
  simp [Nat.succ_sub_succ]

theorem fillHypRow_length (sos : Nat) (hyp : List Nat) (L : Nat)
    (h : hyp.length + 1 ≤ L) : (fillHypRow sos hyp L).length = L := by
  rw [fillHypRow_eq sos hyp L h]
  simp
  omega

/-! ### Claim C5 -/

/-- C5: before invoking the attention decoder, `AttentionRescoring` builds
`hyps_tensor` whose row `i` is `sos_` prepended to hypothesis `i` and
zero-padded to the common length `max_hyps_len`; every row has exactly that
length, and `hyps_length` records `hyp.size() + 1` for every hypothesis. -/
theorem C5_sos_padding_lengths (m : BatchTorchAsrModel)
    (hyps : List (List Nat)) (i : Nat) (hi : i < hyps.length) :
    (buildHypsTensor m.sos_ hyps (maxHypsLen hyps)).get? i
      = some (m.sos_ :: hyps.get ⟨i, hi⟩
          ++ List.replicate (maxHypsLen hyps - ((hyps.get ⟨i, hi⟩).length + 1)) 0)
    ∧ (∀ row ∈ buildHypsTensor m.sos_ hyps (maxHypsLen hyps),
        row.length = maxHypsLen hyps)
    ∧ (hypsLengths hyps).get? i = some ((hyps.get ⟨i, hi⟩).length + 1) := by
  refine ⟨?_, ?_, ?_⟩
  · rw [buildHypsTensor, List.get?_map, List.get?_eq_get hi]
    simp only [Option.map_some']
    rw [fillHypRow_eq m.sos_ _ _ (length_le_maxHypsLen (List.get_mem hyps i hi))]
  · intro row hrow
    rw [buildHypsTensor] at hrow
    obtain ⟨h, hh, rfl⟩ := List.mem_map.mp hrow
    exact fillHypRow_length m.sos_ h _ (length_le_maxHypsLen hh)
  · rw [hypsLengths, List.get?_map, List.get?_eq_get hi]
    rfl

theorem rescoreLoop_get? (m : BatchTorchAsrModel) (out : DecoderOut)
    (rw : ℚ) (hyps : List (List Nat)) :
    ∀ (i k : Nat) (hk : k < hyps.length),
      (rescoreLoop m out rw hyps i).get? k
        = some (BatchTorchAsrModel.ComputeAttentionScore
              (out.probs.getD (i + k) []) (hyps.get ⟨k, hk⟩) m.eos_ * (1 - rw)
            + (if m.is_bidirectional_decoder_ = true ∧ 0 < rw then
                BatchTorchAsrModel.ComputeAttentionScore
                  (out.r_probs.getD (i + k) []) (hyps.get ⟨k, hk⟩).reverse m.eos_
              else 0) * rw) := by
  induction hyps with
  | nil => intro i k hk; cases hk
  | cons hyp rest ih =>
    intro i k hk
    match k with
    | 0 => simp [rescoreLoop]
    | k + 1 =>
      have hk' : k < rest.length := by
        simp at hk; omega
      show (rescoreLoop m out rw rest (i + 1)).get? k = _
      rw [ih (i + 1) k hk']
      have harith : i + 1 + k = i + (k + 1) := by omega
      rw [harith]
      rfl

theorem attentionRescoring_get? (m : BatchTorchAsrModel)
    (hyps : List (List Nat)) (b : Nat) (rw : ℚ) (i : Nat)
    (hi : i < hyps.length) :
    (m.AttentionRescoring hyps b rw).get? i
      = some (BatchTorchAsrModel.ComputeAttentionScore
            ((m.decoderOut hyps b rw).probs.getD i []) (hyps.get ⟨i, hi⟩) m.eos_
              * (1 - rw)
          + (if m.is_bidirectional_decoder_ = true ∧ 0 < rw then
              BatchTorchAsrModel.ComputeAttentionScore
                ((m.decoderOut hyps b rw).r_probs.getD i [])
                (hyps.get ⟨i, hi⟩).reverse m.eos_
            else 0) * rw) := by
  rw [BatchTorchAsrModel.AttentionRescoring, if_neg (by omega)]
  have h := rescoreLoop_get? m (m.decoderOut hyps b rw) rw hyps 0 i hi
  rw [Nat.zero_add] at h
  exact h

/-! ### Claim C1 -/

/-- C1: whenever the right-to-left score of a hypothesis is defined — the
decoder is bidirectional (or `reverse_weight = 0`, where the R2L term is
weighted out) — the score `AttentionRescoring` returns for hypothesis `i`
is `(1 − reverse_weight) * score_L2R + reverse_weight * score_R2L`, with
both scores computed by `ComputeAttentionScore` from the attention decoder
output (`score_R2L` on the reversed hypothesis against `r_probs`). -/
theorem C1_combined_score (m : BatchTorchAsrModel) (hyps : List (List Nat))
    (b : Nat) (rw : ℚ) (i : Nat) (hi : i < hyps.length) (h0 : 0 ≤ rw)
    (hcase : m.is_bidirectional_decoder_ = true ∨ rw = 0) :
    (m.AttentionRescoring hyps b rw).get? i
      = some ((1 - rw) * BatchTorchAsrModel.ComputeAttentionScore
            ((m.decoderOut hyps b rw).probs.getD i []) (hyps.get ⟨i, hi⟩) m.eos_
          + rw * BatchTorchAsrModel.ComputeAttentionScore
            ((m.decoderOut hyps b rw).r_probs.getD i [])
            (hyps.get ⟨i, hi⟩).reverse m.eos_) := by
  rw [attentionRescoring_get? m hyps b rw i hi]
  rcases hcase with hbid | hrw
  · rcases lt_or_eq_of_le h0 with hpos | hzero
    · rw [if_pos ⟨hbid, hpos⟩]
      ring_nf
    · rw [← hzero]
      rcases em (m.is_bidirectional_decoder_ = true ∧ (0:ℚ) < 0) with hc | hc
      · exact absurd hc.2 (lt_irrefl 0)
      · rw [if_neg hc]; ring_nf
  · rw [hrw]
    rw [if_neg (fun hc => lt_irrefl 0 hc.2)]
    ring_nf

/-! ### Claim C4 -/

/-- C4: `AttentionRescoring` adds a right-to-left contribution if and only
if the decoder is bidirectional and `reverse_weight > 0`; in that case the
contribution is the L2R scoring formula applied to the reversed hypothesis
against the R2L log-probabilities `r_probs`, and otherwise the R2L term
is 0. -/
theorem C4_r2l_iff_bidirectional (m : BatchTorchAsrModel)
    (hyps : List (List Nat)) (b : Nat) (rw : ℚ) (i : Nat)
    (hi : i < hyps.length) :
    (m.AttentionRescoring hyps b rw).get? i
      = some ((1 - rw) * BatchTorchAsrModel.ComputeAttentionScore
            ((m.decoderOut hyps b rw).probs.getD i []) (hyps.get ⟨i, hi⟩) m.eos_
          + rw * (if m.is_bidirectional_decoder_ = true ∧ 0 < rw then
              BatchTorchAsrModel.ComputeAttentionScore
                ((m.decoderOut hyps b rw).r_probs.getD i [])
                (hyps.get ⟨i, hi⟩).reverse m.eos_
            else 0)) := by
  rw [attentionRescoring_get? m hyps b rw i hi]
  ring_nf

/-! ### Claim C7 -/

/-- C7: with `reverse_weight = 0`, `AttentionRescoring` returns for every
hypothesis exactly its left-to-right attention score; since the result is a
function of the hypotheses and the decoder output alone, rescoring an
already-rescored N-best with `reverse_weight = 0` returns these same
scores. -/
theorem C7_reverse_weight_zero_idempotent (m : BatchTorchAsrModel)
    (hyps : List (List Nat)) (b : Nat) (i : Nat) (hi : i < hyps.length) :
    (m.AttentionRescoring hyps b 0).get? i
      = some (BatchTorchAsrModel.ComputeAttentionScore
          ((m.decoderOut hyps b 0).probs.getD i []) (hyps.get ⟨i, hi⟩) m.eos_) := by
  rw [attentionRescoring_get? m hyps b 0 i hi]
  rw [if_neg (fun hc => lt_irrefl 0 hc.2)]
  ring_nf

/-! ### Claim C9 -/

/-- C9: called on an empty hypothesis list, `AttentionRescoring` returns
the empty score vector, whatever the executor, the batch index and the
reverse weight — in particular the result does not depend on the
`forward_attention_decoder` method, which models that the early return on
`num_hyps == 0` happens before the model executor is invoked. -/
theorem C9_empty_hyps (m₁ m₂ : BatchTorchAsrModel) (b₁ b₂ : Nat)
    (rw₁ rw₂ : ℚ) :
    m₁.AttentionRescoring [] b₁ rw₁ = []
      ∧ m₁.AttentionRescoring [] b₁ rw₁ = m₂.AttentionRescoring [] b₂ rw₂ :=
  ⟨rfl, rfl⟩

/-! ### Claim C10 -/

/-- C10: when `reverse_weight > 0` but the decoder is not bidirectional,
the returned score is `(1 − reverse_weight) * score_L2R` — the L2R score is
scaled down, not returned at full weight. -/
theorem C10_unidirectional_scaled (m : BatchTorchAsrModel)
    (hyps : List (List Nat)) (b : Nat) (rw : ℚ) (i : Nat)
    (hi : i < hyps.length) (hbid : m.is_bidirectional_decoder_ = false)
    (_hrw : 0 < rw) :
    (m.AttentionRescoring hyps b rw).get? i
      = some ((1 - rw) * BatchTorchAsrModel.ComputeAttentionScore
          ((m.decoderOut hyps b rw).probs.getD i []) (hyps.get ⟨i, hi⟩) m.eos_) := by
  rw [attentionRescoring_get? m hyps b rw i hi]
  rw [if_neg (fun hc => by rw [hbid] at hc; exact Bool.false_ne_true hc.1)]
  ring_nf

theorem getD_of_lt {α : Type} (l : List α) (n : Nat) (d : α)
    (h : n < l.length) : l.getD n d = l.get ⟨n, h⟩ := by
  rw [List.getD_eq_get? l n d, List.get?_eq_get h, Option.getD_some]

theorem scoreLoopChecked_eq (prob : List (List ℚ)) (V : Nat)
    (hrow : ∀ r ∈ prob, r.length = V) (hyp : List Nat) :
    ∀ (j : Nat) (s : ℚ), j + hyp.length ≤ prob.length →
      (∀ t ∈ hyp, t < V) →
      scoreLoopChecked prob hyp j s = some (scoreLoop prob hyp j s) := by
  induction hyp with
  | nil => intro j s _ _; rfl
  | cons t rest ih =>
    intro j s hj htok
    have hjlt : j < prob.length := by simp at hj; omega
    have hrowl : (prob.get ⟨j, hjlt⟩).length = V :=
      hrow _ (List.get_mem prob j hjlt)
    have htlt : t < (prob.get ⟨j, hjlt⟩).length := by
      rw [hrowl]; exact htok t (List.mem_cons_self t rest)
    rw [scoreLoopChecked]
    simp only [List.get?_eq_get hjlt, List.get?_eq_get htlt]
    have hval : (prob.get ⟨j, hjlt⟩).get ⟨t, htlt⟩ = at2 prob j t := by
      rw [at2, getD_of_lt prob j [] hjlt, getD_of_lt _ t 0 htlt]
    rw [hval, scoreLoop]
    exact ih (j + 1) (s + at2 prob j t) (by simp at hj ⊢; omega)
      (fun u hu => htok u (List.mem_cons_of_mem t hu))

theorem computeAttentionScoreChecked_eq (prob : List (List ℚ)) (V : Nat)
    (hrow : ∀ r ∈ prob, r.length = V) (hyp : List Nat) (eos : Nat)
    (hlen : hyp.length + 1 ≤ prob.length) (htok : ∀ t ∈ hyp, t < V)
    (heos : eos < V) :
    ComputeAttentionScoreChecked prob hyp eos
      = some (BatchTorchAsrModel.ComputeAttentionScore prob hyp eos) := by
  have hK : hyp.length < prob.length := by omega
  have hrowl : (prob.get ⟨hyp.length, hK⟩).length = V :=
    hrow _ (List.get_mem prob hyp.length hK)
  have helt : eos < (prob.get ⟨hyp.length, hK⟩).length := by rw [hrowl]; exact heos
  rw [ComputeAttentionScoreChecked,
    scoreLoopChecked_eq prob V hrow hyp 0 0 (by omega) htok]
  simp only [Option.some_bind, List.get?_eq_get hK, List.get?_eq_get helt,
    Option.map_some']
  rw [BatchTorchAsrModel.ComputeAttentionScore]
  have hval : (prob.get ⟨hyp.length, hK⟩).get ⟨eos, helt⟩
      = at2 prob hyp.length eos := by
    rw [at2, getD_of_lt prob hyp.length [] hK, getD_of_lt _ eos 0 helt]
  rw [hval]

/-! ### Claim C8 -/

/-- C8: under the §6 contract — the attention decoder returns
log-probability tensors of shape `(N, L, V)` with `N` the number of
hypotheses and `L = max_hyps_len` the padded length, token ids and `eos`
below `V` — hypothesis `i` satisfies `hyp.size() + 1 ≤ L`, the two shape
assertions `CHECK_EQ(probs.size(0), num_hyps)` and
`CHECK_EQ(probs.size(1), max_hyps_len)` hold, and every accessor read that
`AttentionRescoring` performs through `ComputeAttentionScore` (both L2R
and, when applicable, R2L on the reversed hypothesis) is in bounds: the
bounds-checked evaluation succeeds with the unchecked value. -/
theorem C8_accesses_in_bounds (m : BatchTorchAsrModel)
    (hyps : List (List Nat)) (b : Nat) (rw : ℚ) (V i : Nat)
    (hi : i < hyps.length)
    (hprobs : IsShape3 (m.decoderOut hyps b rw).probs hyps.length
      (maxHypsLen hyps) V)
    (hrprobs : m.is_bidirectional_decoder_ = true ∧ 0 < rw →
      IsShape3 (m.decoderOut hyps b rw).r_probs hyps.length
        (maxHypsLen hyps) V)
    (heos : m.eos_ < V)
    (htok : ∀ t ∈ hyps.get ⟨i, hi⟩, t < V) :
    ((hyps.get ⟨i, hi⟩).length + 1 ≤ maxHypsLen hyps)
    ∧ (m.decoderOut hyps b rw).probs.length = hyps.length
    ∧ ((m.decoderOut hyps b rw).probs.getD i []).length = maxHypsLen hyps
    ∧ ComputeAttentionScoreChecked ((m.decoderOut hyps b rw).probs.getD i [])
        (hyps.get ⟨i, hi⟩) m.eos_
        = some (BatchTorchAsrModel.ComputeAttentionScore
            ((m.decoderOut hyps b rw).probs.getD i []) (hyps.get ⟨i, hi⟩) m.eos_)
    ∧ (m.is_bidirectional_decoder_ = true ∧ 0 < rw →
        ComputeAttentionScoreChecked
          ((m.decoderOut hyps b rw).r_probs.getD i [])
          (hyps.get ⟨i, hi⟩).reverse m.eos_
          = some (BatchTorchAsrModel.ComputeAttentionScore
              ((m.decoderOut hyps b rw).r_probs.getD i [])
              (hyps.get ⟨i, hi⟩).reverse m.eos_)) := by
  obtain ⟨hplen, hprow⟩ := hprobs
  have hiprob : i < (m.decoderOut hyps b rw).probs.length := by
    rw [hplen]; exact hi
  have hmem : (m.decoderOut hyps b rw).probs.getD i []
      ∈ (m.decoderOut hyps b rw).probs := by
    rw [getD_of_lt _ i [] hiprob]
    exact List.get_mem _ i hiprob
  obtain ⟨hrowL, hrowV⟩ := hprow _ hmem
  have hbound : (hyps.get ⟨i, hi⟩).length + 1 ≤ maxHypsLen hyps :=
    length_le_maxHypsLen (List.get_mem hyps i hi)
  refine ⟨hbound, hplen, hrowL, ?_, ?_⟩
  · exact computeAttentionScoreChecked_eq _ V hrowV _ m.eos_
      (by rw [hrowL]; exact hbound) htok heos
  · intro hc
    obtain ⟨hrlen, hrrow⟩ := hrprobs hc
    have hirp : i < (m.decoderOut hyps b rw).r_probs.length := by
      rw [hrlen]; exact hi
    have hrmem : (m.decoderOut hyps b rw).r_probs.getD i []
        ∈ (m.decoderOut hyps b rw).r_probs := by
      rw [getD_of_lt _ i [] hirp]
      exact List.get_mem _ i hirp
    obtain ⟨hrL, hrV⟩ := hrrow _ hrmem
    exact computeAttentionScoreChecked_eq _ V hrV _ m.eos_
      (by rw [hrL, List.length_reverse]; exact hbound)
      (fun t ht => htok t (List.mem_reverse.mp ht)) heos

theorem range_map_getD {α : Type} (l : List α) (d : α) :
    (List.range l.length).map (fun i => l.getD i d) = l := by
  induction l with
  | nil => rfl
  | cons a t ih =>
    rw [List.length_cons, List.range_succ_eq_map, List.map_cons, List.map_map]
    simp only [Function.comp_def, List.getD_cons_zero, List.getD_cons_succ]
    rw [ih]

theorem row_copy_eq (r : List (List ℚ)) (V : Nat)
    (hV : ∀ q ∈ r, q.length = V) :
    (List.range r.length).map (fun j =>
      (List.range V).map fun k => (r.getD j []).getD k 0) = r := by
  have hcong : ∀ j ∈ List.range r.length,
      (List.range V).map (fun k => (r.getD j []).getD k 0) = r.getD j [] := by
    intro j hj
    have hjl : j < r.length := List.mem_range.mp hj
    have hmem : r.getD j [] ∈ r := by
      rw [getD_of_lt _ j [] hjl]; exact List.get_mem _ j hjl
    rw [← hV _ hmem]
    exact range_map_getD (r.getD j []) 0
  rw [List.map_congr_left hcong]
  exact range_map_getD r []

theorem copy3_eq (t : Tensor3) (T V : Nat)
    (hT : ∀ r ∈ t, r.length = T) (hV : ∀ r ∈ t, ∀ q ∈ r, q.length = V) :
    (List.range t.length).map (fun i =>
      (List.range T).map fun j =>
        (List.range V).map fun k => ((t.getD i []).getD j []).getD k 0) = t := by
  have hcong : ∀ i ∈ List.range t.length,
      (List.range T).map (fun j =>
        (List.range V).map fun k => ((t.getD i []).getD j []).getD k 0)
      = t.getD i [] := by
    intro i hi
    have hil : i < t.length := List.mem_range.mp hi
    have hmem : t.getD i [] ∈ t := by
      rw [getD_of_lt _ i [] hil]; exact List.get_mem _ i hil
    rw [← hT _ hmem]
    exact row_copy_eq (t.getD i []) V (hV _ hmem)
  rw [List.map_congr_left hcong]
  exact range_map_getD t []

/-! ### Claim C3 -/

/-- C3 counterexample: the batched decoding path of the code is not the
single-op `batch_forward_encoder` 3-tuple path the claim describes.  On the
concrete executor `mEnc` (whose spec-side `batch_forward_encoder` op is even
consistent on `enc_out` with the code's `forward_encoder_batch` op) the CTC
log-probabilities produced by the code — via the separate `ctc_activation`
call — differ from the third tuple component the claim's path returns. -/
theorem C3_counterexample_encoder_op :
    (mEnc.ForwardEncoderFunc [[[0]]] [1]).2
      ≠ (mEnc.ForwardEncoderFuncClaimC3 [[[0]]] [1]).2 := by
  decide

/-- C3 (amended): the batched decoding path calls the op
`forward_encoder_batch` on `(feats, feats_lens)`, which returns a 2-tuple;
the retained encoder output is its first element, and the CTC
log-probabilities are obtained by the separate op `ctc_activation` applied
to that encoder output (no encoder lengths are returned).  Under the
contract that `ctc_activation` yields a regular `(B, T′, V)` tensor with
`B = feats.length`, the copy loop reproduces it exactly. -/
theorem C3_amended_two_op_encoder_path (m : BatchTorchAsrModel)
    (feats : Tensor3) (lens : List Int) (T V : Nat)
    (hshape : IsShape3
      (m.ctc_activation_ ((m.forward_encoder_batch_ feats lens).1))
      feats.length T V) :
    (m.ForwardEncoderFunc feats lens).1.encoder_out_
        = (m.forward_encoder_batch_ feats lens).1
    ∧ (m.ForwardEncoderFunc feats lens).2
        = m.ctc_activation_ ((m.forward_encoder_batch_ feats lens).1) := by
  refine ⟨rfl, ?_⟩
  simp only [BatchTorchAsrModel.ForwardEncoderFunc]
  generalize hc : m.ctc_activation_ ((m.forward_encoder_batch_ feats lens).1)
    = c at hshape ⊢
  obtain ⟨hlen, hrows⟩ := hshape
  rw [← hlen]
  cases c with
  | nil => rfl
  | cons r0 t' =>
    have hr0T : r0.length = T := (hrows r0 (List.mem_cons_self r0 t')).1
    simp only [List.getD_cons_zero]
    have hT' : ∀ r ∈ r0 :: t', r.length = r0.length := by
      intro r hr
      rw [(hrows r hr).1, hr0T]
    have hV' : ∀ r ∈ r0 :: t', ∀ q ∈ r, q.length = (r0.getD 0 []).length := by
      intro r hr q hq
      have hrT : r.length = T := (hrows r hr).1
      have hTpos : 0 < r0.length := by
        rw [hr0T, ← hrT]
        exact List.length_pos_of_mem hq
      have hmem0 : r0.getD 0 [] ∈ r0 := by
        rw [getD_of_lt _ 0 [] hTpos]; exact List.get_mem _ 0 hTpos
      rw [(hrows r hr).2 q hq, (hrows r0 (List.mem_cons_self r0 t')).2 _ hmem0]
    exact copy3_eq (r0 :: t') r0.length ((r0.getD 0 []).length) hT' hV'

/-! ### Claim C6 -/

/-- C6: `Read` stores the loaded model's `subsampling_rate`, `sos`, `eos`
and `is_bidirectional_decoder` metadata in the executor, and the metadata
fields are left untouched by the encoder forward (the only state-changing
operation, which updates `encoder_out_` alone; `AttentionRescoring` is
const).  However, contrary to the claim, `Read` does not store
`right_context`: the source retrieves and type-checks the model's
`right_context` value but never assigns the member, so after reading
`metaSample` (whose `right_context` is 7) the executor still holds its
prior value 1 — the code-bug exhibited by the last conjunct. -/
theorem C6_read_metadata_drops_right_context :
    (∀ (m : BatchTorchAsrModel) (meta : ModelMetadata),
      (m.Read meta).subsampling_rate_ = meta.subsampling_rate
      ∧ (m.Read meta).sos_ = meta.sos_symbol
      ∧ (m.Read meta).eos_ = meta.eos_symbol
      ∧ (m.Read meta).is_bidirectional_decoder_ = meta.is_bidirectional_decoder
      ∧ (m.Read meta).right_context_ = m.right_context_)
    ∧ (∀ (m : BatchTorchAsrModel) (feats : Tensor3) (lens : List Int),
      (m.ForwardEncoderFunc feats lens).1.subsampling_rate_ = m.subsampling_rate_
      ∧ (m.ForwardEncoderFunc feats lens).1.right_context_ = m.right_context_
      ∧ (m.ForwardEncoderFunc feats lens).1.sos_ = m.sos_
      ∧ (m.ForwardEncoderFunc feats lens).1.eos_ = m.eos_
      ∧ (m.ForwardEncoderFunc feats lens).1.is_bidirectional_decoder_
          = m.is_bidirectional_decoder_)
    ∧ (mBase.Read metaSample).right_context_ ≠ metaSample.right_context := by
  refine ⟨fun m meta => ⟨rfl, rfl, rfl, rfl, rfl⟩,
    fun m feats lens => ⟨rfl, rfl, rfl, rfl, rfl⟩, by decide⟩

/-! ### Witnesses -/

theorem C1_combined_score_witness :
    (0 < ([[1], [2]] : List (List Nat)).length ∧ (0:ℚ) ≤ 1
      ∧ (mBidir.is_bidirectional_decoder_ = true ∨ (1:ℚ) = 0))
    ∧ (mBidir.AttentionRescoring [[1], [2]] 0 1).get? 0
      = some ((1 - 1) * BatchTorchAsrModel.ComputeAttentionScore
            ((mBidir.decoderOut [[1], [2]] 0 1).probs.getD 0 [])
            (([[1], [2]] : List (List Nat)).get ⟨0, by decide⟩) mBidir.eos_
          + 1 * BatchTorchAsrModel.ComputeAttentionScore
            ((mBidir.decoderOut [[1], [2]] 0 1).r_probs.getD 0 [])
            (([[1], [2]] : List (List Nat)).get ⟨0, by decide⟩).reverse
            mBidir.eos_) :=
  ⟨⟨by decide, by decide, Or.inl rfl⟩,
    C1_combined_score mBidir [[1], [2]] 0 1 0 (by decide) (by decide)
      (Or.inl rfl)⟩

theorem C3_amended_two_op_encoder_path_witness :
    IsShape3 (mEnc.ctc_activation_ ((mEnc.forward_encoder_batch_ [[[0]]] [1]).1))
        ([[[0]]] : Tensor3).length 1 1
    ∧ ((mEnc.ForwardEncoderFunc [[[0]]] [1]).1.encoder_out_
          = (mEnc.forward_encoder_batch_ [[[0]]] [1]).1
      ∧ (mEnc.ForwardEncoderFunc [[[0]]] [1]).2
          = mEnc.ctc_activation_ ((mEnc.forward_encoder_batch_ [[[0]]] [1]).1)) :=
  ⟨by decide, C3_amended_two_op_encoder_path mEnc [[[0]]] [1] 1 1 (by decide)⟩

theorem C4_r2l_iff_bidirectional_witness :
    (1 < ([[1], [2]] : List (List Nat)).length)
    ∧ (mBidir.AttentionRescoring [[1], [2]] 0 1).get? 1
      = some ((1 - 1) * BatchTorchAsrModel.ComputeAttentionScore
            ((mBidir.decoderOut [[1], [2]] 0 1).probs.getD 1 [])
            (([[1], [2]] : List (List Nat)).get ⟨1, by decide⟩) mBidir.eos_
          + 1 * (if mBidir.is_bidirectional_decoder_ = true ∧ (0:ℚ) < 1 then
              BatchTorchAsrModel.ComputeAttentionScore
                ((mBidir.decoderOut [[1], [2]] 0 1).r_probs.getD 1 [])
                (([[1], [2]] : List (List Nat)).get ⟨1, by decide⟩).reverse
                mBidir.eos_
            else 0)) :=
  ⟨by decide, C4_r2l_iff_bidirectional mBidir [[1], [2]] 0 1 1 (by decide)⟩

theorem C5_sos_padding_lengths_witness :
    (1 < ([[1], [2, 3]] : List (List Nat)).length)
    ∧ ((buildHypsTensor mBidir.sos_ [[1], [2, 3]] (maxHypsLen [[1], [2, 3]])).get? 1
        = some (mBidir.sos_ :: ([[1], [2, 3]] : List (List Nat)).get ⟨1, by decide⟩
            ++ List.replicate (maxHypsLen [[1], [2, 3]]
              - ((([[1], [2, 3]] : List (List Nat)).get ⟨1, by decide⟩).length + 1)) 0)
      ∧ (∀ row ∈ buildHypsTensor mBidir.sos_ [[1], [2, 3]] (maxHypsLen [[1], [2, 3]]),
          row.length = maxHypsLen [[1], [2, 3]])
      ∧ (hypsLengths [[1], [2, 3]]).get? 1
          = some ((([[1], [2, 3]] : List (List Nat)).get ⟨1, by decide⟩).length + 1)) :=
  ⟨by decide, C5_sos_padding_lengths mBidir [[1], [2, 3]] 1 (by decide)⟩

theorem C7_reverse_weight_zero_idempotent_witness :
    (0 < ([[1], [2]] : List (List Nat)).length)
    ∧ (mBidir.AttentionRescoring [[1], [2]] 0 0).get? 0
      = some (BatchTorchAsrModel.ComputeAttentionScore
          ((mBidir.decoderOut [[1], [2]] 0 0).probs.getD 0 [])
          (([[1], [2]] : List (List Nat)).get ⟨0, by decide⟩) mBidir.eos_) :=
  ⟨by decide, C7_reverse_weight_zero_idempotent mBidir [[1], [2]] 0 0 (by decide)⟩

theorem C8_accesses_in_bounds_witness :
    (IsShape3 (mBidir.decoderOut [[1], [2]] 0 1).probs
        ([[1], [2]] : List (List Nat)).length (maxHypsLen [[1], [2]]) 3
      ∧ mBidir.eos_ < 3)
    ∧ ((([[1], [2]] : List (List Nat)).get ⟨0, by decide⟩).length + 1
          ≤ maxHypsLen [[1], [2]]
      ∧ (mBidir.decoderOut [[1], [2]] 0 1).probs.length
          = ([[1], [2]] : List (List Nat)).length
      ∧ ((mBidir.decoderOut [[1], [2]] 0 1).probs.getD 0 []).length
          = maxHypsLen [[1], [2]]
      ∧ ComputeAttentionScoreChecked
          ((mBidir.decoderOut [[1], [2]] 0 1).probs.getD 0 [])
          (([[1], [2]] : List (List Nat)).get ⟨0, by decide⟩) mBidir.eos_
          = some (BatchTorchAsrModel.ComputeAttentionScore
              ((mBidir.decoderOut [[1], [2]] 0 1).probs.getD 0 [])
              (([[1], [2]] : List (List Nat)).get ⟨0, by decide⟩) mBidir.eos_)
      ∧ (mBidir.is_bidirectional_decoder_ = true ∧ (0:ℚ) < 1 →
          ComputeAttentionScoreChecked
            ((mBidir.decoderOut [[1], [2]] 0 1).r_probs.getD 0 [])
            (([[1], [2]] : List (List Nat)).get ⟨0, by decide⟩).reverse mBidir.eos_
            = some (BatchTorchAsrModel.ComputeAttentionScore
                ((mBidir.decoderOut [[1], [2]] 0 1).r_probs.getD 0 [])
                (([[1], [2]] : List (List Nat)).get ⟨0, by decide⟩).reverse
                mBidir.eos_))) :=
  ⟨⟨by decide, by decide⟩,
    C8_accesses_in_bounds mBidir [[1], [2]] 0 1 3 0 (by decide) (by decide)
      (by decide) (by decide) (by decide)⟩

theorem C10_unidirectional_scaled_witness :
    (0 < ([[1]] : List (List Nat)).length
      ∧ mUni.is_bidirectional_decoder_ = false ∧ (0:ℚ) < 1)
    ∧ (mUni.AttentionRescoring [[1]] 0 1).get? 0
      = some ((1 - 1) * BatchTorchAsrModel.ComputeAttentionScore
          ((mUni.decoderOut [[1]] 0 1).probs.getD 0 [])
          (([[1]] : List (List Nat)).get ⟨0, by decide⟩) mUni.eos_) :=
  ⟨⟨by decide, by decide, by decide⟩,
    C10_unidirectional_scaled mUni [[1]] 0 1 0 (by decide) (by decide)
      (by decide)⟩
